import Mathlib

/-!
# Verification of `google_streetview/api.py`

A shallow embedding of the `StreetView` class of `google_streetview/api.py`
together with proofs about the claims of the specification.

Python dictionaries are embedded as insertion-ordered association lists
(`List (String × String)` for URL parameter mappings, `List (String × JVal)`
for parsed JSON metadata records).  The standard-library helpers the source
delegates to (`urllib.parse.urlencode` / `quote_plus`, `re.findall` for the
one fixed pattern, `json` values) are embedded by modelling their documented
behaviour on the inputs the source hands them.
-/

namespace GSV

/-- A parsed JSON value, the result type of `json.load` / `response.json()`. -/
inductive JVal where
  | null : JVal
  | bool : Bool → JVal
  | num : Int → JVal
  | str : String → JVal
  | arr : List JVal → JVal
  | obj : List (String × JVal) → JVal

/-- A Python exception, as raised by the code paths we embed. -/
inductive PyErr where
  | typeError : String → PyErr
  | indexError : PyErr
  | valueError : PyErr
  | nameError : String → PyErr
  | keyError : String → PyErr
  deriving DecidableEq, Repr

/-- A URL parameter mapping: a Python `dict` of strings, embedded as an
insertion-ordered association list with the dict's key/value pairs. -/
abbrev ParamMap := List (String × String)

/-- `dict(d, **p)`: a copy of `d` updated with the entries of `p`.  Keys of
`d` keep their position (with the value from `p` when `p` also binds them);
keys only in `p` are appended in `p`'s order. -/
def dictMerge (d p : ParamMap) : ParamMap :=
  d.map (fun kv => (kv.1, ((p.lookup kv.1).getD kv.2))) ++
    p.filter (fun kv => (d.lookup kv.1).isNone)

/-- The `defaults` dict built in `StreetView.__init__`:
`{'size': '640x640', 'key': api_key}`. -/
def defaults (api_key : String) : ParamMap :=
  [("size", "640x640"), ("key", api_key)]

/-! ## `urllib.parse.urlencode`

`urlencode(p)` iterates the dict in insertion order and produces
`quote_plus(k) + '=' + quote_plus(v)` for each pair, joined by `'&'`.
`quote_plus` encodes the UTF-8 bytes of its argument: the byte 32 (space)
becomes `'+'`, ASCII letters, digits and `'_'`, `'.'`, `'-'`, `'~'` stand
for themselves, and every other byte becomes `'%'` followed by two upper-case
hex digits. -/

/-- The UTF-8 bytes of a character (as `Nat`s below 256). -/
def utf8Bytes (c : Char) : List Nat :=
  if c.toNat < 128 then [c.toNat]
  else if c.toNat < 2048 then
    [192 + c.toNat / 64, 128 + c.toNat % 64]
  else if c.toNat < 65536 then
    [224 + c.toNat / 4096, 128 + c.toNat / 64 % 64, 128 + c.toNat % 64]
  else
    [240 + c.toNat / 262144, 128 + c.toNat / 4096 % 64,
      128 + c.toNat / 64 % 64, 128 + c.toNat % 64]

/-- The bytes `quote_plus` leaves unescaped (Python's `_ALWAYS_SAFE`:
ASCII letters, digits, `'_'`, `'.'`, `'-'`, `'~'`). -/
def isSafeByte (b : Nat) : Bool :=
  (65 ≤ b && b ≤ 90) || (97 ≤ b && b ≤ 122) || (48 ≤ b && b ≤ 57) ||
    b = 95 || b = 46 || b = 45 || b = 126

/-- Upper-case hex digit for a value below 16. -/
def hexUpper (n : Nat) : Char :=
  if n < 10 then Char.ofNat (48 + n) else Char.ofNat (55 + n)

/-- `quote_plus` on one byte: space becomes `'+'`, safe bytes stand for
themselves, all other bytes are percent-escaped. -/
def encByte (b : Nat) : List Char :=
  if b = 32 then ['+']
  else if isSafeByte b then [Char.ofNat b]
  else ['%', hexUpper (b / 16), hexUpper (b % 16)]

/-- `quote_plus` on a character list. -/
def quoteChars (cs : List Char) : List Char :=
  (cs.flatMap utf8Bytes).flatMap encByte

/-- `urllib.parse.quote_plus` (with the default empty `safe` set, as
`urlencode` calls it). -/
def quote_plus (s : String) : String :=
  ⟨quoteChars s.data⟩

/-- One `k=v` component of an encoded query string. -/
def encodePairChars (kv : String × String) : List Char :=
  quoteChars kv.1.data ++ '=' :: quoteChars kv.2.data

/-- Join components with `'&'` (the list-level `'&'.join`). -/
def joinAmp : List (List Char) → List Char
  | [] => []
  | [f] => f
  | f :: g :: r => f ++ '&' :: joinAmp (g :: r)

/-- `urllib.parse.urlencode` on a parameter mapping. -/
def urlencode (p : ParamMap) : String :=
  ⟨joinAmp (p.map encodePairChars)⟩

/-! ## The constructor `StreetView.__init__` -/

/-- The value-level result of `StreetView.__init__`: the (mutated) parameter
list and the two derived link lists. -/
structure StreetView where
  params : List ParamMap
  links : List String
  metadata_links : List String
  deriving Repr

/-- `StreetView.__init__`: merge `defaults` under every caller mapping
(`params[i] = dict(defaults, **params[i])`), then build one image link and
one metadata link per merged mapping by form-encoding it onto the endpoint. -/
def StreetView.init (params : List ParamMap) (api_key : String)
    (site_api : String := "https://maps.googleapis.com/maps/api/streetview")
    (site_metadata : String := "https://maps.googleapis.com/maps/api/streetview/metadata") :
    StreetView :=
  let merged := params.map (fun p => dictMerge (defaults api_key) p)
  { params := merged
    links := merged.map (fun p => site_api ++ "?" ++ urlencode p)
    metadata_links := merged.map (fun p => site_metadata ++ "?" ++ urlencode p) }

/-! ## A minimal heap for the in-place mutation of `params`

`__init__` rebinds every slot of the caller's list (`params[i] = ...`) and
then stores the very same list object (`self.params = params`).  We model the
heap of Python list objects as a list of lists indexed by references. -/

/-- A heap of Python list-of-dict objects; a reference is an index. -/
structure Heap where
  lists : List (List ParamMap)

/-- `StreetView` as seen by the caller: `params` is a reference into the
heap, the link lists are plain values. -/
structure StreetViewRef where
  params_ref : Nat
  links : List String
  metadata_links : List String

/-- `StreetView.__init__` acting on the heap: the caller passes a reference
`r` to its parameter list; the constructor overwrites each slot of that very
list object with the defaults-merged mapping and stores the reference. -/
def StreetView.initHeap (h : Heap) (r : Nat) (api_key : String)
    (site_api site_metadata : String) : Heap × StreetViewRef :=
  let sv := StreetView.init (h.lists.getD r []) api_key site_api site_metadata
  (⟨h.lists.set r sv.params⟩, ⟨r, sv.links, sv.metadata_links⟩)

/-! ## The `metadata` property

In the source the getter is declared `async def` under `@property`.  A plain
attribute access `self.metadata` therefore evaluates the getter, which —
being a coroutine function — returns a coroutine object without running its
body.  Awaiting that coroutine runs the body, whose list comprehension
refers to the free name `get_street_url`; there is no module-level binding
of that name (the module-level variant is commented out and the method of
the same name is not in scope inside the method body), so a non-empty batch
raises `NameError`.  Even on an empty batch the gathered results are
discarded, `self._metadata` is never assigned, and the stored `None` is
returned. -/

/-- A parsed metadata record: a JSON object, as a Python dict. -/
abbrev MetaRecord := List (String × JVal)

/-- What the attribute access `self.metadata` evaluates to: in the source as
written, always a coroutine object; the class docstring documents it as a
list of dicts (`pylist`). -/
inductive PyAttr where
  | coroutine
  | pylist (ms : List MetaRecord)

/-- The constant value of `self.metadata` in the source as written: the
getter is `async`, so attribute access yields a coroutine object. -/
def metadataAttr : PyAttr := .coroutine

/-- `self.metadata[i]`: subscripting a coroutine raises `TypeError`;
subscripting a list out of range raises `IndexError`. -/
def PyAttr.subscript : PyAttr → Nat → Except PyErr MetaRecord
  | .coroutine, _ => .error (.typeError "coroutine object is not subscriptable")
  | .pylist ms, i =>
    match ms[i]? with
    | some m => .ok m
    | none => .error .indexError

/-- `self.metadata[i] = m` (slot update of the list object). -/
def PyAttr.setIdx : PyAttr → Nat → MetaRecord → PyAttr
  | .coroutine, _, _ => .coroutine
  | .pylist ms, i, m => .pylist (ms.set i m)

/-- `json.dump(metadata, ...)`: a coroutine is not JSON serializable; a list
of dicts serializes as a JSON array of objects. -/
def PyAttr.jsonDump : PyAttr → Except PyErr JVal
  | .coroutine => .error (.typeError "Object of type coroutine is not JSON serializable")
  | .pylist ms => .ok (.arr (ms.map JVal.obj))

/-- Awaiting `self.metadata`: a non-empty batch raises `NameError` at the
unresolved `get_street_url`; an empty batch returns the stored `None`
(never a list — `self._metadata` is never assigned). -/
def metadataAwait (metadata_links : List String) : Except PyErr (Option (List JVal)) :=
  match metadata_links with
  | [] => .ok none
  | _ :: _ => .error (.nameError "get_street_url")

/-! ## The existing-file scan of `download_links`

`max([-1] + [int(re.findall(r"gsv\_(\d*).jpg", f.name)[0]) for f in
dir_path.glob("*.jpg")]) + 1`.  We embed `re.findall(...)[0]` for this one
fixed pattern: scan for the leftmost occurrence of `gsv_`, then match the
group `(\d*)` greedily with backtracking, then one arbitrary (non-newline)
character, then the literal `jpg`.  `[0]` of no match raises `IndexError`;
`int('')` on an empty captured group raises `ValueError`.  (`\d` is embedded
as an ASCII digit.) -/

/-- One arbitrary non-newline character followed by the literal `jpg`
(the `.jpg` part of the pattern — `.` is a regex wildcard). -/
def tailMatch : List Char → Bool
  | c :: 'j' :: 'p' :: 'g' :: _ => decide (c ≠ '\n')
  | _ => false

/-- Match `(\d*).jpg` at the current position: take the digit run, then try
capturing the longest prefix of it (greedy, backtracking) such that the
remainder starts with an arbitrary character followed by `jpg`. -/
def matchAfterGsv (cs : List Char) : Option (List Char) :=
  ((List.range ((cs.takeWhile Char.isDigit).length + 1)).reverse).findSome? fun k =>
    if tailMatch ((cs.takeWhile Char.isDigit).drop k ++
        cs.drop (cs.takeWhile Char.isDigit).length) then
      some ((cs.takeWhile Char.isDigit).take k)
    else none

/-- Leftmost match of `gsv\_(\d*).jpg`: the captured group of the first
position where the whole pattern matches. -/
def findGsvMatch : List Char → Option (List Char)
  | 'g' :: 's' :: 'v' :: '_' :: tail =>
    match matchAfterGsv tail with
    | some ds => some ds
    | none => findGsvMatch ('s' :: 'v' :: '_' :: tail)
  | _ :: rest => findGsvMatch rest
  | [] => none

/-- `int` on a non-empty decimal digit string. -/
def digitsToNat (ds : List Char) : Nat :=
  ds.foldl (fun a c => 10 * a + (c.toNat - 48)) 0

/-- `int(re.findall(r"gsv\_(\d*).jpg", name)[0])`. -/
def gsvIndex (name : String) : Except PyErr Nat :=
  match findGsvMatch name.data with
  | none => .error .indexError
  | some [] => .error .valueError
  | some ds => .ok (digitsToNat ds)

/-- The `max_index` computation of `download_links` on the `*.jpg` names of
the target directory: one more than the maximum scanned index (−1 when the
directory has no `*.jpg` file). -/
def maxIndexPlusOne (jpgNames : List String) : Except PyErr Int :=
  (jpgNames.mapM gsvIndex).map fun ns =>
    ns.foldl (fun a b => max a (Int.ofNat b)) (-1) + 1

/-! ## The download loop and persistence of `download_links` -/

/-- Python `==` between a JSON value and a string: true exactly when the
value is that string. -/
def JVal.isStr : JVal → String → Bool
  | .str t, s => t = s
  | _, _ => false

/-- `d[k] = v` on a dict: update the value in place when the key exists,
append the binding otherwise. -/
def setItem (r : MetaRecord) (k : String) (v : JVal) : MetaRecord :=
  if (r.lookup k).isSome then r.map (fun kv => if kv.1 = k then (k, v) else kv)
  else r ++ [(k, v)]

/-- The download loop of `download_links`, from index `i` on: for each link,
read `self.metadata[i][metadata_status]`; when it equals `status_ok`, name
the file `gsv_{max_index + i}.jpg`, record it on the metadata record under
`'_file'`, and download the link to it.  Returns the `(url, file name)`
pairs written and the final value of `self.metadata`. -/
def downloadLoop (max_index : Int) (metadata_status status_ok : String) :
    Nat → List String → PyAttr → Except PyErr (List (String × String) × PyAttr)
  | _, [], attr => .ok ([], attr)
  | i, url :: urls, attr => do
    let m ← attr.subscript i
    match m.lookup metadata_status with
    | none => .error (.keyError metadata_status)
    | some v =>
      if v.isStr status_ok then
        let fname := "gsv_" ++ toString (max_index + (i : Int)) ++ ".jpg"
        let attr2 := attr.setIdx i (setItem m "_file" (.str fname))
        (downloadLoop max_index metadata_status status_ok (i + 1) urls attr2).map
          fun wa => ((url, fname) :: wa.1, wa.2)
      else
        (downloadLoop max_index metadata_status status_ok (i + 1) urls attr).map
          fun wa => (wa.1, wa.2)

/-- `save_metadata`: with mode `"a"` and an existing file, `json.load` the
prior content and evaluate `current_metadata + metadata`; in every case
`json.dump` the result over the file (`'w+'` truncates).  `prior` is the
parsed prior file content (`none` when the file does not exist); the result
is the parsed content written back. -/
def save_metadata (prior : Option JVal) (mode : String) (metadata : PyAttr) :
    Except PyErr JVal :=
  match prior with
  | some p =>
    if mode = "a" then
      match p, metadata with
      | .arr xs, .pylist ms => .ok (.arr (xs ++ ms.map JVal.obj))
      | .arr _, .coroutine => .error (.typeError "can only concatenate list to list")
      | _, _ => .error (.typeError "unsupported operand types for +")
    else metadata.jsonDump
  | none => metadata.jsonDump

/-- `download_links` after the directory has been created: scan the existing
`*.jpg` names, run the download loop over the links with `self.metadata`,
then save the metadata (with file references) to the metadata file.  Returns
the `(url, file name)` pairs written and the JSON written to the metadata
file. -/
def download_links (existingJpgs : List String) (links : List String)
    (metadata : PyAttr) (metadata_status : String := "status")
    (status_ok : String := "OK") (priorMetadataFile : Option JVal := none)
    (mode : String := "w") : Except PyErr (List (String × String) × JVal) := do
  let max_index ← maxIndexPlusOne existingJpgs
  let wa ← downloadLoop max_index metadata_status status_ok 0 links metadata
  let dumped ← save_metadata priorMetadataFile mode wa.2
  pure (wa.1, dumped)

/-- `save_links`: join the links with single newlines and write the result
over the file (`'w'` truncates — the prior content is irrelevant). -/
def save_links (_priorContent : Option String) (links : List String) : String :=
  String.intercalate "\n" links

/-- The file-name pattern as the specification states it: exactly
`gsv_<digits>.jpg` with at least one digit. -/
def specGsvName (name : String) : Bool :=
  match name.data with
  | 'g' :: 's' :: 'v' :: '_' :: rest =>
    let ds := rest.takeWhile Char.isDigit
    decide (ds ≠ []) && decide (rest.drop ds.length = ['.', 'j', 'p', 'g'])
  | _ => false

end GSV

namespace GSV

/-! ## Query-string decoding

Modelled from the spec: "standard query-string decoding" (`parse_qsl`):
split the query string on `'&'`, split each field at the first `'='`, and
percent-decode name and value with `'+'` standing for a space (blank values
kept).  Percent-decoding collects the byte string — a valid `%XX` escape
contributes its byte, any other character its UTF-8 bytes, an invalid
escape a literal `'%'` — and decodes it as UTF-8 (strictly: `none` on
malformed byte sequences, which never arise on encoder output). -/

/-- Hexadecimal digit value (both cases accepted). -/
def hexVal? (c : Char) : Option Nat :=
  if 48 ≤ c.toNat ∧ c.toNat ≤ 57 then some (c.toNat - 48)
  else if 65 ≤ c.toNat ∧ c.toNat ≤ 70 then some (c.toNat - 55)
  else if 97 ≤ c.toNat ∧ c.toNat ≤ 102 then some (c.toNat - 87)
  else none

/-- `'+'` decodes to a space. -/
def plusToSpace (cs : List Char) : List Char :=
  cs.map fun c => if c = '+' then ' ' else c

/-- The byte string of a percent-encoded text. -/
def toBytes : List Char → List Nat
  | [] => []
  | '%' :: a :: b :: rest =>
    if (hexVal? a).isSome ∧ (hexVal? b).isSome then
      (16 * (hexVal? a).getD 0 + (hexVal? b).getD 0) :: toBytes rest
    else 37 :: toBytes (a :: b :: rest)
  | '%' :: rest => 37 :: toBytes rest
  | c :: rest => utf8Bytes c ++ toBytes rest

/-- Strict UTF-8 decoding, byte by byte.  The state carries the accumulated
code-point bits, the number of continuation bytes still expected, and the
smallest code point the chosen sequence length may encode (to reject
overlong forms); surrogates and values beyond U+10FFFF are rejected. -/
def utf8DecodeGo : Option (Nat × Nat × Nat) → List Nat → Option (List Char)
  | none, [] => some []
  | some _, [] => none
  | none, b :: rest =>
    if b < 128 then (utf8DecodeGo none rest).map (fun cs => Char.ofNat b :: cs)
    else if 194 ≤ b ∧ b < 224 then utf8DecodeGo (some (b - 192, 1, 128)) rest
    else if 224 ≤ b ∧ b < 240 then utf8DecodeGo (some (b - 224, 2, 2048)) rest
    else if 240 ≤ b ∧ b < 245 then utf8DecodeGo (some (b - 240, 3, 65536)) rest
    else none
  | some (acc, need, low), b :: rest =>
    if 128 ≤ b ∧ b < 192 then
      if need = 1 then
        if low ≤ acc * 64 + (b - 128) ∧ acc * 64 + (b - 128) < 1114112 ∧
            (acc * 64 + (b - 128) < 55296 ∨ 57343 < acc * 64 + (b - 128)) then
          (utf8DecodeGo none rest).map (fun cs => Char.ofNat (acc * 64 + (b - 128)) :: cs)
        else none
      else utf8DecodeGo (some (acc * 64 + (b - 128), need - 1, low)) rest
    else none

/-- `urllib.parse.unquote_plus` at the character-list level. -/
def unquotePlusChars (cs : List Char) : Option (List Char) :=
  utf8DecodeGo none (toBytes (plusToSpace cs))

/-- Split a query string on `'&'`. -/
def splitOnAmp : List Char → List (List Char)
  | [] => [[]]
  | c :: rest =>
    if c = '&' then [] :: splitOnAmp rest
    else (c :: (splitOnAmp rest).headD []) :: (splitOnAmp rest).tail

/-- Split one field at the first `'='` (everything after it is the value). -/
def splitFirstEq : List Char → List Char × List Char
  | [] => ([], [])
  | c :: rest =>
    if c = '=' then ([], rest)
    else (c :: (splitFirstEq rest).1, (splitFirstEq rest).2)

/-- Modelled from the spec: "standard query-string decoding"
(`urllib.parse.parse_qsl` keeping blank values): split on `'&'`, split each
field at the first `'='`, percent-decode both halves with `'+'` as space. -/
def parse_qsl (s : String) : Option (List (String × String)) :=
  if s.data = [] then some []
  else (splitOnAmp s.data).mapM fun f =>
    match unquotePlusChars (splitFirstEq f).1, unquotePlusChars (splitFirstEq f).2 with
    | some n, some v => some (⟨n⟩, ⟨v⟩)
    | _, _ => none

end GSV

namespace GSV

/-- C1: constructing a `StreetView` from a parameter list of length `N`
produces a `links` list and a `metadata_links` list each of length `N`, and
the entry at index `i` of each is the endpoint followed by `?` and the
form-encoding of the defaults-merged mapping at index `i` of the input. -/
theorem claim_C1 (params : List ParamMap) (api_key site_api site_metadata : String) :
    (StreetView.init params api_key site_api site_metadata).links.length = params.length ∧
    (StreetView.init params api_key site_api site_metadata).metadata_links.length = params.length ∧
    ∀ i : Nat,
      (StreetView.init params api_key site_api site_metadata).links[i]? =
        (params[i]?).map (fun p => site_api ++ "?" ++ urlencode (dictMerge (defaults api_key) p)) ∧
      (StreetView.init params api_key site_api site_metadata).metadata_links[i]? =
        (params[i]?).map (fun p => site_metadata ++ "?" ++ urlencode (dictMerge (defaults api_key) p)) := by
  refine ⟨?_, ?_, fun i => ⟨?_, ?_⟩⟩ <;>
    simp [StreetView.init, List.getElem?_map, Option.map_map, Function.comp_def]

/-- C9: `__init__` mutates the caller's list object in place — after
construction the heap slot the caller's reference points to holds the
defaults-merged mappings — and the constructed object's `params` field is
that same reference (aliasing, not a copy). -/
theorem claim_C9 (h : Heap) (r : Nat) (api_key site_api site_metadata : String)
    (hr : r < h.lists.length) :
    (StreetView.initHeap h r api_key site_api site_metadata).2.params_ref = r ∧
    (StreetView.initHeap h r api_key site_api site_metadata).1.lists[r]? =
      some ((h.lists.getD r []).map (fun p => dictMerge (defaults api_key) p)) ∧
    (StreetView.initHeap h r api_key site_api site_metadata).1.lists.length =
      h.lists.length := by
  refine ⟨rfl, ?_, by simp [StreetView.initHeap]⟩
  simp [StreetView.initHeap, StreetView.init, List.getElem?_set, hr]

/-- Witness for C9 at a concrete heap: one caller list holding one mapping. -/
theorem claim_C9_witness :
    (StreetView.initHeap ⟨[[[("location", "x")]]]⟩ 0 "K" "A" "M").2.params_ref = 0 ∧
    (StreetView.initHeap ⟨[[[("location", "x")]]]⟩ 0 "K" "A" "M").1.lists[0]? =
      some ([[("location", "x")]].map (fun p => dictMerge (defaults "K") p)) ∧
    (StreetView.initHeap ⟨[[[("location", "x")]]]⟩ 0 "K" "A" "M").1.lists.length =
      ([[[("location", "x")]]] : List (List ParamMap)).length :=
  claim_C9 ⟨[[[("location", "x")]]]⟩ 0 "K" "A" "M" (by decide)

end GSV


namespace GSV

/-- C2: the claim says the metadata fetch yields, for every non-empty batch,
the ordered list of parsed responses.  The code as written cannot: awaiting
the `metadata` property raises `NameError` at the unresolved name
`get_street_url` on every non-empty batch (and discards all fetched data
even apart from that, never assigning `self._metadata`). -/
theorem claim_C2 (metadata_links : List String) (h : metadata_links ≠ []) :
    metadataAwait metadata_links = .error (.nameError "get_street_url") := by
  cases metadata_links with
  | nil => exact absurd rfl h
  | cons a l => rfl

/-- Witness for C2 on a one-element batch. -/
theorem claim_C2_witness :
    metadataAwait ["https://maps.googleapis.com/maps/api/streetview/metadata?size=640x640"] =
      .error (.nameError "get_street_url") :=
  claim_C2 _ (List.cons_ne_nil _ _)

/-- C4: the `save_metadata` concatenation logic is as claimed when
`self.metadata` is the documented list of records — overwrite then append
yields the concatenated JSON array — but in the source as written
`self.metadata` is a coroutine (the getter is `async`), so both calls raise
`TypeError` and nothing is saved. -/
theorem claim_C4 :
    save_metadata none "w" (.pylist [[("a", JVal.num 1)]]) =
      .ok (.arr [.obj [("a", .num 1)]]) ∧
    save_metadata (some (.arr [.obj [("a", .num 1)]])) "a" (.pylist [[("b", JVal.num 2)]]) =
      .ok (.arr [.obj [("a", .num 1)], .obj [("b", .num 2)]]) ∧
    save_metadata (some (.arr [.obj [("a", .num 1)]])) "a" metadataAttr =
      .error (.typeError "can only concatenate list to list") ∧
    save_metadata none "w" metadataAttr =
      .error (.typeError "Object of type coroutine is not JSON serializable") :=
  ⟨rfl, rfl, rfl, rfl⟩

/-- C5: with `self.metadata` as the documented record list
`[{"status": "OK"}, {"status": "ZERO_RESULTS"}]`, the download loop writes
exactly one file (for the first entry), annotates only that record with
`'_file'`, and finishes without error; but in the source as written
`self.metadata` is a coroutine, so `download_links` raises `TypeError` at
its first subscript and writes nothing. -/
theorem claim_C5 :
    downloadLoop 0 "status" "OK" 0 ["u1", "u2"]
        (.pylist [[("status", JVal.str "OK")], [("status", JVal.str "ZERO_RESULTS")]]) =
      .ok ([("u1", "gsv_0.jpg")],
        .pylist [[("status", JVal.str "OK"), ("_file", JVal.str "gsv_0.jpg")],
          [("status", JVal.str "ZERO_RESULTS")]]) ∧
    download_links [] ["u1", "u2"] metadataAttr "status" "OK" none "w" =
      .error (.typeError "coroutine object is not subscriptable") :=
  ⟨rfl, rfl⟩

/-- C8: `save_links` writes the links joined by single newlines, with no
trailing newline, and the written content does not depend on the prior file
content (pure overwrite, no merge). -/
theorem claim_C8 :
    (∀ priorContent, save_links priorContent ["http://x", "http://y"] = "http://x\nhttp://y") ∧
    ∀ priorContent links, save_links priorContent links = save_links none links :=
  ⟨fun _ => rfl, fun _ _ => rfl⟩

/-- C10 fails as stated: `agsv_5.jpg` does not match the pattern
`gsv_<digits>.jpg`, yet the scan does not raise — `re.findall` searches the
pattern as a substring, so the scan accepts the name with index 5 and
`max_index` becomes 6. -/
theorem claim_C10_counterexample :
    specGsvName "agsv_5.jpg" = false ∧
    maxIndexPlusOne ["agsv_5.jpg"] = .ok 6 :=
  ⟨rfl, rfl⟩

end GSV

namespace GSV

/-- On a name of the exact form `gsv_<digits>` + `.jpg`, the greedy group
captures the whole digit run and the match succeeds. -/
theorem matchAfterGsv_exact (rest : List Char)
    (hdrop : rest.drop (rest.takeWhile Char.isDigit).length = ['.', 'j', 'p', 'g']) :
    matchAfterGsv rest = some (rest.takeWhile Char.isDigit) := by
  have ht : tailMatch ['.', 'j', 'p', 'g'] = true := rfl
  unfold matchAfterGsv
  rw [List.range_succ, List.reverse_append]
  simp [hdrop, List.drop_length, List.take_length, List.findSome?_cons, ht]

/-- Every name matching the exact pattern is scanned without error. -/
theorem gsvIndex_ok_of_spec (name : String) (h : specGsvName name = true) :
    ∃ m, gsvIndex name = .ok m := by
  unfold specGsvName at h
  split at h
  next heq =>
    rename_i rest
    simp only [Bool.and_eq_true, decide_eq_true_eq] at h
    obtain ⟨hne, hdrop⟩ := h
    unfold gsvIndex
    rw [heq]
    have hm : matchAfterGsv rest = some (rest.takeWhile Char.isDigit) :=
      matchAfterGsv_exact rest hdrop
    simp only [findGsvMatch, hm]
    cases hds : rest.takeWhile Char.isDigit with
    | nil => exact absurd hds hne
    | cons a l => exact ⟨_, rfl⟩
  next => exact absurd h (by simp)

/-- The whole scan succeeds when every `*.jpg` name matches the exact
pattern. -/
theorem mapM_gsvIndex_ok (names : List String)
    (h : ∀ n ∈ names, specGsvName n = true) :
    ∃ ks, names.mapM gsvIndex = Except.ok ks := by
  induction names with
  | nil => exact ⟨[], rfl⟩
  | cons n ns ih =>
    obtain ⟨m, hm⟩ := gsvIndex_ok_of_spec n (h n (by simp))
    obtain ⟨ks, hks⟩ := ih fun x hx => h x (by simp [hx])
    refine ⟨m :: ks, ?_⟩
    rw [List.mapM_cons, hm]
    simp only [hks]
    rfl

/-- C10, amended: the exact-pattern precondition is sufficient for the scan
to be total, and a `.jpg` name with no substring occurrence of the pattern
(`photo.jpg`) raises `IndexError`, while one whose first occurrence captures
an empty digit group (`gsv_.jpg`) raises `ValueError`, in both cases inside
the scan — before any file is written.  (It is not necessary: see the
counterexample `agsv_5.jpg`, accepted because `re.findall` searches the
pattern as a substring and its `.` is a wildcard.) -/
theorem claim_C10 :
    (∀ names : List String, (∀ n ∈ names, specGsvName n = true) →
      ∃ k, maxIndexPlusOne names = .ok k) ∧
    maxIndexPlusOne ["photo.jpg"] = .error .indexError ∧
    maxIndexPlusOne ["gsv_.jpg"] = .error .valueError ∧
    ∀ links metadata prior mode,
      download_links ["photo.jpg"] links metadata "status" "OK" prior mode =
        .error .indexError := by
  refine ⟨?_, rfl, rfl, fun links metadata prior mode => rfl⟩
  intro names h
  obtain ⟨ks, hks⟩ := mapM_gsvIndex_ok names h
  exact ⟨_, by unfold maxIndexPlusOne; rw [hks]; rfl⟩

/-- Witness for C10 on a directory whose only name matches the pattern. -/
theorem claim_C10_witness : ∃ k, maxIndexPlusOne ["gsv_7.jpg"] = .ok k :=
  claim_C10.1 ["gsv_7.jpg"] (by decide)

end GSV

namespace GSV

/-- Updating the slot right after a prefix. -/
theorem set_append_len {α : Type} (pre : List α) (a b : α) (l : List α) :
    (pre ++ a :: l).set pre.length b = pre ++ b :: l := by
  induction pre with
  | nil => rfl
  | cons p ps ih => simp only [List.cons_append, List.length_cons, List.set_cons_succ, ih]

/-- Reading the slot right after a prefix. -/
theorem getElem?_append_len {α : Type} (pre : List α) (a : α) (l : List α) :
    (pre ++ a :: l)[pre.length]? = some a := by
  rw [List.getElem?_append_right (Nat.le_refl _)]
  simp

/-- The download loop over `self.metadata` as the documented list of
records: when the records are aligned with the links and all carry the
status key, the loop succeeds and writes exactly the `(url, gsv_<max_index
+ i>.jpg)` pairs of the entries whose status is the ok sentinel, in order. -/
theorem downloadLoop_pylist (mi : Int) (ks ok : String) (links : List String) :
    ∀ (pre ms : List MetaRecord), ms.length = links.length →
      (∀ m ∈ ms, (m.lookup ks).isSome) →
      ∃ ms2 : List MetaRecord,
        downloadLoop mi ks ok pre.length links (.pylist (pre ++ ms)) =
          .ok (((links.zip ms).enumFrom pre.length).filterMap (fun jp =>
              if ((jp.2.2.lookup ks).getD .null).isStr ok then
                some (jp.2.1, "gsv_" ++ toString (mi + (jp.1 : Int)) ++ ".jpg")
              else none),
            .pylist (pre ++ ms2)) ∧ ms2.length = ms.length := by
  induction links with
  | nil =>
    intro pre ms hlen _
    have hnil : ms = [] := List.length_eq_zero.mp hlen
    subst hnil
    exact ⟨[], rfl, rfl⟩
  | cons url urls ih =>
    intro pre ms hlen hks
    cases ms with
    | nil => simp at hlen
    | cons m ms' =>
      have hsub : (pre ++ m :: ms')[pre.length]? = some m :=
        getElem?_append_len pre m ms'
      have hlook : (m.lookup ks).isSome = true := hks m (by simp)
      obtain ⟨v, hv⟩ := Option.isSome_iff_exists.mp hlook
      have hlen' : ms'.length = urls.length := by simpa using hlen
      have hks' : ∀ x ∈ ms', (x.lookup ks).isSome := fun x hx => hks x (by simp [hx])
      have hbind : ∀ {β : Type} (f : MetaRecord → Except PyErr β),
          ((Except.ok m : Except PyErr MetaRecord) >>= f) = f m := fun _ => rfl
      simp only [downloadLoop, PyAttr.subscript, hsub, hbind, hv,
        List.zip_cons_cons, List.enumFrom_cons, List.filterMap_cons, Option.getD_some]
      cases hb : v.isStr ok with
      | true =>
        simp only [hb, if_true, PyAttr.setIdx, set_append_len]
        have hsplit : pre ++ setItem m "_file"
            (.str ("gsv_" ++ toString (mi + (pre.length : Int)) ++ ".jpg")) :: ms' =
            (pre ++ [setItem m "_file"
              (.str ("gsv_" ++ toString (mi + (pre.length : Int)) ++ ".jpg"))]) ++ ms' := by
          simp
        rw [hsplit, show pre.length + 1 = (pre ++ [setItem m "_file"
          (.str ("gsv_" ++ toString (mi + (pre.length : Int)) ++ ".jpg"))]).length by simp]
        obtain ⟨ms2', heq, hlen2⟩ := ih _ ms' hlen' hks'
        rw [heq]
        refine ⟨setItem m "_file"
          (.str ("gsv_" ++ toString (mi + (pre.length : Int)) ++ ".jpg")) :: ms2', ?_, by
            simp [hlen2]⟩
        simp [Except.map, List.append_assoc]
      | false =>
        simp only [Bool.false_eq_true, if_false]
        have hsplit : pre ++ m :: ms' = (pre ++ [m]) ++ ms' := by simp
        rw [hsplit, show pre.length + 1 = (pre ++ [m]).length by simp]
        obtain ⟨ms2', heq, hlen2⟩ := ih _ ms' hlen' hks'
        rw [heq]
        refine ⟨m :: ms2', ?_, by simp [hlen2]⟩
        simp [Except.map, List.append_assoc]

end GSV

namespace GSV

/-- C3: on a directory holding `gsv_0.jpg` and `gsv_2.jpg` the scan assigns
3 (one more than the maximum existing index, not 1) as the next index, and
the download loop — with `self.metadata` as the documented record list —
writes the entry at loop position `i` to the fresh file `gsv_{3+i}.jpg`;
but in the source as written `self.metadata` is a coroutine (the getter is
`async`), so `download_links` raises `TypeError` right after the scan and
writes no file at all. -/
theorem claim_C3 (links : List String) (ms : List MetaRecord)
    (hlen : ms.length = links.length)
    (hks : ∀ m ∈ ms, (m.lookup "status").isSome) :
    maxIndexPlusOne ["gsv_0.jpg", "gsv_2.jpg"] = .ok 3 ∧
    (∃ ms2, downloadLoop 3 "status" "OK" 0 links (.pylist ms) =
      .ok (((links.zip ms).enum).filterMap (fun jp =>
          if ((jp.2.2.lookup "status").getD .null).isStr "OK" then
            some (jp.2.1, "gsv_" ++ toString ((3 : Int) + (jp.1 : Int)) ++ ".jpg")
          else none), .pylist ms2)) ∧
    (links ≠ [] →
      download_links ["gsv_0.jpg", "gsv_2.jpg"] links metadataAttr "status" "OK" none "w" =
        .error (.typeError "coroutine object is not subscriptable")) := by
  refine ⟨rfl, ?_, ?_⟩
  · obtain ⟨ms2, heq, -⟩ := downloadLoop_pylist 3 "status" "OK" links [] ms hlen hks
    exact ⟨ms2, by simpa [List.enum] using heq⟩
  · intro hl
    cases links with
    | nil => exact absurd rfl hl
    | cons a l => rfl

/-- Witness for C3 on one link with one available record. -/
theorem claim_C3_witness :
    maxIndexPlusOne ["gsv_0.jpg", "gsv_2.jpg"] = .ok 3 ∧
    (∃ ms2, downloadLoop 3 "status" "OK" 0 ["u"]
        (.pylist [[("status", JVal.str "OK")]]) =
      .ok (((["u"].zip [[("status", JVal.str "OK")]]).enum).filterMap (fun jp =>
          if ((jp.2.2.lookup "status").getD .null).isStr "OK" then
            some (jp.2.1, "gsv_" ++ toString ((3 : Int) + (jp.1 : Int)) ++ ".jpg")
          else none), .pylist ms2)) ∧
    ((["u"] : List String) ≠ [] →
      download_links ["gsv_0.jpg", "gsv_2.jpg"] ["u"] metadataAttr "status" "OK" none "w" =
        .error (.typeError "coroutine object is not subscriptable")) :=
  claim_C3 ["u"] [[("status", JVal.str "OK")]] rfl
    (by intro m hm; rw [List.mem_singleton] at hm; subst hm; rfl)

end GSV


namespace GSV

/-- Two strings with the same character data are equal. -/
theorem string_ext {a b : String} (h : a.data = b.data) : a = b := by
  cases a; cases b; exact congrArg String.mk h

/-- The code point of a character, as the validity disjunction on `Nat`. -/
theorem char_valid_nat (c : Char) :
    c.toNat < 55296 ∨ (57343 < c.toNat ∧ c.toNat < 1114112) := by
  rcases c.valid with h | ⟨h1, h2⟩
  · exact Or.inl h
  · exact Or.inr ⟨h1, h2⟩

/-- `Char.ofNat` on a valid code point has that code point. -/
theorem toNat_ofNat_valid (n : Nat) (h : n.isValidChar) : (Char.ofNat n).toNat = n := by
  unfold Char.ofNat
  rw [dif_pos h]
  simp [Char.ofNatAux, Char.toNat, UInt32.toNat]

/-- `Char.ofNat` on a small code point has that code point. -/
theorem toNat_ofNat_small (n : Nat) (h : n < 55296) : (Char.ofNat n).toNat = n :=
  toNat_ofNat_valid n (Or.inl h)

/-- Characters with different code points differ. -/
theorem char_ne_of_toNat_ne {c d : Char} (h : c.toNat ≠ d.toNat) : c ≠ d :=
  fun he => h (by rw [he])

/-- Decoding one ASCII byte. -/
theorem utf8DecodeGo_one (t : Nat) (h : t < 128) (bs : List Nat) :
    utf8DecodeGo none (t :: bs) =
      (utf8DecodeGo none bs).map (fun cs => Char.ofNat t :: cs) := by
  rw [utf8DecodeGo]
  rw [if_pos h]

/-- Decoding a two-byte sequence. -/
theorem utf8DecodeGo_two (t : Nat) (h1 : 128 ≤ t) (h2 : t < 2048) (bs : List Nat) :
    utf8DecodeGo none ((192 + t / 64) :: (128 + t % 64) :: bs) =
      (utf8DecodeGo none bs).map (fun cs => Char.ofNat t :: cs) := by
  rw [utf8DecodeGo]
  rw [if_neg (by omega), if_pos (by omega)]
  rw [utf8DecodeGo]
  rw [if_pos (by omega), if_pos rfl]
  have ha : (192 + t / 64 - 192) * 64 + (128 + t % 64 - 128) = t := by omega
  rw [ha]
  rw [if_pos (by omega)]

/-- Decoding a three-byte sequence (no surrogates). -/
theorem utf8DecodeGo_three (t : Nat) (h1 : 2048 ≤ t) (h2 : t < 65536)
    (hs : t < 55296 ∨ 57343 < t) (bs : List Nat) :
    utf8DecodeGo none ((224 + t / 4096) :: (128 + t / 64 % 64) :: (128 + t % 64) :: bs) =
      (utf8DecodeGo none bs).map (fun cs => Char.ofNat t :: cs) := by
  rw [utf8DecodeGo]
  rw [if_neg (by omega), if_neg (by omega), if_pos (by omega)]
  rw [utf8DecodeGo]
  rw [if_pos (by omega), if_neg (by omega)]
  have ha : (224 + t / 4096 - 224) * 64 + (128 + t / 64 % 64 - 128) = t / 64 := by omega
  rw [ha]
  rw [utf8DecodeGo]
  rw [if_pos (by omega), if_pos rfl]
  have hb : t / 64 * 64 + (128 + t % 64 - 128) = t := by omega
  rw [hb]
  rw [if_pos (by exact ⟨h1, by omega, hs⟩)]

/-- Decoding a four-byte sequence. -/
theorem utf8DecodeGo_four (t : Nat) (h1 : 65536 ≤ t) (h2 : t < 1114112) (bs : List Nat) :
    utf8DecodeGo none ((240 + t / 262144) :: (128 + t / 4096 % 64) ::
        (128 + t / 64 % 64) :: (128 + t % 64) :: bs) =
      (utf8DecodeGo none bs).map (fun cs => Char.ofNat t :: cs) := by
  rw [utf8DecodeGo]
  rw [if_neg (by omega), if_neg (by omega), if_neg (by omega), if_pos (by omega)]
  rw [utf8DecodeGo]
  rw [if_pos (by omega), if_neg (by omega)]
  have ha : (240 + t / 262144 - 240) * 64 + (128 + t / 4096 % 64 - 128) = t / 4096 := by
    omega
  rw [ha]
  rw [utf8DecodeGo]
  rw [if_pos (by omega), if_neg (by omega)]
  have hb : t / 4096 * 64 + (128 + t / 64 % 64 - 128) = t / 64 := by omega
  rw [hb]
  rw [utf8DecodeGo]
  rw [if_pos (by omega), if_pos rfl]
  have hc : t / 64 * 64 + (128 + t % 64 - 128) = t := by omega
  rw [hc]
  rw [if_pos (by omega)]

/-- UTF-8 decoding inverts the encoding of one character, prefix-wise. -/
theorem utf8DecodeGo_utf8Bytes (c : Char) (bs : List Nat) :
    utf8DecodeGo none (utf8Bytes c ++ bs) =
      (utf8DecodeGo none bs).map (fun cs => c :: cs) := by
  by_cases h1 : c.toNat < 128
  · rw [utf8Bytes, if_pos h1]
    rw [List.cons_append, List.nil_append]
    rw [utf8DecodeGo_one c.toNat h1 bs, Char.ofNat_toNat]
  · have hv := char_valid_nat c
    by_cases h2 : c.toNat < 2048
    · rw [utf8Bytes, if_neg h1, if_pos h2]
      simp only [List.cons_append, List.nil_append]
      rw [utf8DecodeGo_two c.toNat (by omega) h2 bs, Char.ofNat_toNat]
    · by_cases h3 : c.toNat < 65536
      · rw [utf8Bytes, if_neg h1, if_neg h2, if_pos h3]
        simp only [List.cons_append, List.nil_append]
        rw [utf8DecodeGo_three c.toNat (by omega) h3 (by omega) bs, Char.ofNat_toNat]
      · rw [utf8Bytes, if_neg h1, if_neg h2, if_neg h3]
        simp only [List.cons_append, List.nil_append]
        rw [utf8DecodeGo_four c.toNat (by omega) (by omega) bs, Char.ofNat_toNat]

/-- UTF-8 decoding inverts the encoding of a character list. -/
theorem utf8DecodeGo_flatMap (cs : List Char) :
    utf8DecodeGo none (cs.flatMap utf8Bytes) = some cs := by
  induction cs with
  | nil => rfl
  | cons c rest ih =>
    rw [List.flatMap_cons, utf8DecodeGo_utf8Bytes, ih]
    rfl

end GSV

namespace GSV

/-- UTF-8 bytes are bytes. -/
theorem utf8Bytes_lt_256 (c : Char) : ∀ b ∈ utf8Bytes c, b < 256 := by
  have hv := char_valid_nat c
  intro b hb
  unfold utf8Bytes at hb
  split at hb
  · simp at hb
    omega
  · split at hb
    · simp at hb
      rcases hb with hb | hb <;> omega
    · split at hb
      · simp at hb
        rcases hb with hb | hb | hb <;> omega
      · simp at hb
        rcases hb with hb | hb | hb | hb <;> omega

/-- A valid escape contributes its byte. -/
theorem toBytes_percent (a b : Char) (x y : Nat) (rest : List Char)
    (ha : hexVal? a = some x) (hb : hexVal? b = some y) :
    toBytes ('%' :: a :: b :: rest) = (16 * x + y) :: toBytes rest := by
  rw [toBytes]
  rw [if_pos ⟨by simp [ha], by simp [hb]⟩, ha, hb]
  rfl

/-- Any character other than `'%'` contributes its UTF-8 bytes. -/
theorem toBytes_other (c : Char) (rest : List Char) (hc : c ≠ '%') :
    toBytes (c :: rest) = utf8Bytes c ++ toBytes rest := by
  rw [toBytes.eq_def]
  split
  · simp_all
  · simp_all
  · simp_all
  · rename_i c1 rest1 heq h
    injection h with h1 h2
    subst h1; subst h2
    rfl

/-- The code point of an upper-case hex digit. -/
theorem toNat_hexUpper (x : Nat) (h : x < 16) :
    (hexUpper x).toNat = if x < 10 then 48 + x else 55 + x := by
  unfold hexUpper
  by_cases h10 : x < 10
  · rw [if_pos h10, if_pos h10, toNat_ofNat_small _ (by omega)]
  · rw [if_neg h10, if_neg h10, toNat_ofNat_small _ (by omega)]

/-- `hexVal?` inverts `hexUpper`. -/
theorem hexVal_hexUpper (x : Nat) (h : x < 16) : hexVal? (hexUpper x) = some x := by
  unfold hexVal?
  rw [toNat_hexUpper x h]
  by_cases h10 : x < 10
  · rw [if_pos h10]
    rw [if_pos (by omega)]
    congr 1
    omega
  · rw [if_neg h10]
    rw [if_neg (by omega), if_pos (by omega)]
    congr 1
    omega

/-- Unfolding of the safe-byte predicate. -/
theorem isSafeByte_iff (b : Nat) : isSafeByte b = true ↔
    ((65 ≤ b ∧ b ≤ 90) ∨ (97 ≤ b ∧ b ≤ 122) ∨ (48 ≤ b ∧ b ≤ 57) ∨
      b = 95 ∨ b = 46 ∨ b = 45 ∨ b = 126) := by
  unfold isSafeByte
  simp [Bool.or_eq_true, Bool.and_eq_true, decide_eq_true_eq]
  tauto

/-- Percent-decoding inverts the encoding of one byte, prefix-wise. -/
theorem toBytes_encByte (b : Nat) (hb : b < 256) (rest : List Char) :
    toBytes (plusToSpace (encByte b ++ rest)) = b :: toBytes (plusToSpace rest) := by
  unfold encByte
  by_cases h32 : b = 32
  · rw [if_pos h32]
    show toBytes (plusToSpace ('+' :: rest)) = b :: toBytes (plusToSpace rest)
    unfold plusToSpace
    rw [List.map_cons, if_pos rfl]
    rw [toBytes_other ' ' _ (by decide)]
    rw [h32]
    rfl
  · rw [if_neg h32]
    by_cases hs : isSafeByte b
    · rw [if_pos hs]
      have hsb := (isSafeByte_iff b).mp hs
      have hval : (Char.ofNat b).toNat = b := toNat_ofNat_small b (by omega)
      show toBytes (plusToSpace (Char.ofNat b :: rest)) = b :: toBytes (plusToSpace rest)
      unfold plusToSpace
      rw [List.map_cons]
      rw [if_neg (char_ne_of_toNat_ne (by
        rw [hval, show ('+').toNat = 43 from rfl]; omega))]
      rw [toBytes_other _ _ (char_ne_of_toNat_ne (by
        rw [hval, show ('%').toNat = 37 from rfl]; omega))]
      rw [utf8Bytes, hval, if_pos (by omega)]
      rfl
    · rw [if_neg hs]
      show toBytes (plusToSpace ('%' :: hexUpper (b / 16) :: hexUpper (b % 16) :: rest)) =
        b :: toBytes (plusToSpace rest)
      unfold plusToSpace
      rw [List.map_cons, List.map_cons, List.map_cons]
      rw [if_neg (by decide)]
      rw [if_neg (char_ne_of_toNat_ne (by
        rw [toNat_hexUpper _ (by omega), show ('+').toNat = 43 from rfl]; split <;> omega))]
      rw [if_neg (char_ne_of_toNat_ne (by
        rw [toNat_hexUpper _ (by omega), show ('+').toNat = 43 from rfl]; split <;> omega))]
      rw [toBytes_percent _ _ (b / 16) (b % 16) _
        (hexVal_hexUpper _ (by omega)) (hexVal_hexUpper _ (by omega))]
      congr 1
      omega

/-- Percent-decoding inverts the encoding of a byte list, prefix-wise. -/
theorem toBytes_encBytes (bs : List Nat) (h : ∀ b ∈ bs, b < 256) (rest : List Char) :
    toBytes (plusToSpace (bs.flatMap encByte ++ rest)) = bs ++ toBytes (plusToSpace rest) := by
  induction bs with
  | nil => simp
  | cons b bs ih =>
    rw [List.flatMap_cons, List.append_assoc]
    rw [toBytes_encByte b (h b (by simp)) _]
    rw [ih (fun x hx => h x (by simp [hx]))]
    rfl

/-- `unquote_plus` inverts `quote_plus` at the character-list level. -/
theorem unquote_quote (cs : List Char) : unquotePlusChars (quoteChars cs) = some cs := by
  unfold unquotePlusChars quoteChars
  have hbound : ∀ b ∈ cs.flatMap utf8Bytes, b < 256 := by
    intro b hb
    rw [List.mem_flatMap] at hb
    obtain ⟨c, -, hc⟩ := hb
    exact utf8Bytes_lt_256 c b hc
  have := toBytes_encBytes (cs.flatMap utf8Bytes) hbound []
  rw [List.append_nil] at this
  rw [this]
  show utf8DecodeGo none (cs.flatMap utf8Bytes ++ toBytes (plusToSpace [])) = some cs
  rw [show toBytes (plusToSpace []) = [] from rfl, List.append_nil]
  exact utf8DecodeGo_flatMap cs

/-- `quote_plus` is injective. -/
theorem quoteChars_inj {a b : List Char} (h : quoteChars a = quoteChars b) : a = b := by
  have ha := unquote_quote a
  rw [h, unquote_quote b] at ha
  exact (Option.some.injEq _ _).mp ha.symm

/-- Encoded bytes never produce a separator character. -/
theorem encByte_mem_ne (b : Nat) (hb : b < 256) (x : Char) (hx : x ∈ encByte b) :
    x ≠ '&' ∧ x ≠ '=' := by
  unfold encByte at hx
  split at hx
  · simp at hx
    subst hx
    exact ⟨by decide, by decide⟩
  · split at hx
    · rename_i hs
      have hsb := (isSafeByte_iff b).mp hs
      have hval : (Char.ofNat b).toNat = b := toNat_ofNat_small b (by omega)
      simp at hx
      subst hx
      exact ⟨char_ne_of_toNat_ne (by
          rw [hval, show ('&').toNat = 38 from rfl]; omega),
        char_ne_of_toNat_ne (by
          rw [hval, show ('=').toNat = 61 from rfl]; omega)⟩
    · simp at hx
      rcases hx with hx | hx | hx <;> subst hx
      · exact ⟨by decide, by decide⟩
      · exact ⟨char_ne_of_toNat_ne (by
            rw [toNat_hexUpper _ (by omega), show ('&').toNat = 38 from rfl]
            split <;> omega),
          char_ne_of_toNat_ne (by
            rw [toNat_hexUpper _ (by omega), show ('=').toNat = 61 from rfl]
            split <;> omega)⟩
      · exact ⟨char_ne_of_toNat_ne (by
            rw [toNat_hexUpper _ (by omega), show ('&').toNat = 38 from rfl]
            split <;> omega),
          char_ne_of_toNat_ne (by
            rw [toNat_hexUpper _ (by omega), show ('=').toNat = 61 from rfl]
            split <;> omega)⟩

/-- No separator character occurs in `quote_plus` output. -/
theorem quoteChars_mem_ne (cs : List Char) (x : Char) (hx : x ∈ quoteChars cs) :
    x ≠ '&' ∧ x ≠ '=' := by
  unfold quoteChars at hx
  rw [List.mem_flatMap] at hx
  obtain ⟨b, hb, hxb⟩ := hx
  rw [List.mem_flatMap] at hb
  obtain ⟨c, -, hcb⟩ := hb
  exact encByte_mem_ne b (utf8Bytes_lt_256 c b hcb) x hxb

end GSV

namespace GSV

/-- Splitting never yields an empty field list. -/
theorem splitOnAmp_ne_nil (cs : List Char) : splitOnAmp cs ≠ [] := by
  cases cs with
  | nil => simp [splitOnAmp]
  | cons c rest =>
    rw [splitOnAmp]
    split <;> simp

/-- A field free of `'&'` splits to itself. -/
theorem splitOnAmp_no_amp (f : List Char) (hf : '&' ∉ f) : splitOnAmp f = [f] := by
  induction f with
  | nil => rfl
  | cons c rest ih =>
    rw [splitOnAmp]
    rw [if_neg (by intro hc; exact hf (by simp [hc]))]
    rw [ih (fun hr => hf (by simp [hr]))]
    rfl

/-- Splitting after an `'&'`-free field peels that field off. -/
theorem splitOnAmp_append (f rest : List Char) (hf : '&' ∉ f) :
    splitOnAmp (f ++ '&' :: rest) = f :: splitOnAmp rest := by
  induction f with
  | nil =>
    rw [List.nil_append, splitOnAmp, if_pos rfl]
  | cons c f2 ih =>
    rw [List.cons_append, splitOnAmp]
    rw [if_neg (by intro hc; exact hf (by simp [hc]))]
    rw [ih (fun hr => hf (by simp [hr]))]
    rfl

/-- `joinAmp` of components without `'&'` splits back to the components. -/
theorem splitOnAmp_joinAmp (comps : List (List Char)) (h : comps ≠ [])
    (hall : ∀ f ∈ comps, '&' ∉ f) :
    splitOnAmp (joinAmp comps) = comps := by
  induction comps with
  | nil => exact absurd rfl h
  | cons f rest ih =>
    cases rest with
    | nil =>
      rw [joinAmp]
      exact splitOnAmp_no_amp f (hall f (by simp))
    | cons g r =>
      rw [joinAmp]
      rw [splitOnAmp_append f _ (hall f (by simp))]
      rw [ih (by simp) (fun x hx => hall x (by simp [hx]))]

/-- Splitting at the first `'='` after an `'='`-free prefix. -/
theorem splitFirstEq_append (a b : List Char) (ha : '=' ∉ a) :
    splitFirstEq (a ++ '=' :: b) = (a, b) := by
  induction a with
  | nil =>
    rw [List.nil_append, splitFirstEq, if_pos rfl]
  | cons c a2 ih =>
    rw [List.cons_append, splitFirstEq]
    rw [if_neg (by intro hc; exact ha (by simp [hc]))]
    rw [ih (fun hr => ha (by simp [hr]))]

/-- An encoded component is nonempty. -/
theorem joinAmp_cons_ne_nil (f : List Char) (rest : List (List Char)) (hf : f ≠ []) :
    joinAmp (f :: rest) ≠ [] := by
  cases rest with
  | nil => simpa [joinAmp] using hf
  | cons g r =>
    rw [joinAmp]
    simp

/-- Decoding one encoded `k=v` component returns the pair. -/
theorem parseField_encodePair (k v : String) :
    (match unquotePlusChars (splitFirstEq (encodePairChars (k, v))).1,
        unquotePlusChars (splitFirstEq (encodePairChars (k, v))).2 with
      | some n, some v2 => some ((⟨n⟩ : String), (⟨v2⟩ : String))
      | _, _ => none) = some (k, v) := by
  have hsplit : splitFirstEq (encodePairChars (k, v)) =
      (quoteChars k.data, quoteChars v.data) :=
    splitFirstEq_append _ _ (fun hm => (quoteChars_mem_ne k.data '=' hm).2 rfl)
  rw [hsplit]
  rw [unquote_quote k.data, unquote_quote v.data]

end GSV

namespace GSV

/-- No `'&'` occurs in an encoded component. -/
theorem encodePair_no_amp (kv : String × String) : '&' ∉ encodePairChars kv := by
  intro h
  unfold encodePairChars at h
  rw [List.mem_append] at h
  rcases h with h | h
  · exact (quoteChars_mem_ne _ _ h).1 rfl
  · rw [List.mem_cons] at h
    rcases h with h | h
    · exact absurd h (by decide)
    · exact (quoteChars_mem_ne _ _ h).1 rfl

/-- Decoding every encoded component of a mapping returns the mapping. -/
theorem mapM_parseField (m : ParamMap) :
    (m.map encodePairChars).mapM (fun f =>
      match unquotePlusChars (splitFirstEq f).1, unquotePlusChars (splitFirstEq f).2 with
      | some n, some v => some ((⟨n⟩ : String), (⟨v⟩ : String))
      | _, _ => none) = some m := by
  induction m with
  | nil => rfl
  | cons kv m2 ih =>
    obtain ⟨k, v⟩ := kv
    rw [List.map_cons, List.mapM_cons]
    rw [parseField_encodePair k v]
    simp only [ih]
    rfl

/-- Round trip for any nonempty mapping: form-encoding then standard
query-string decoding returns exactly the mapping. -/
theorem parse_urlencode (m : ParamMap) (hm : m ≠ []) :
    parse_qsl (urlencode m) = some m := by
  cases m with
  | nil => exact absurd rfl hm
  | cons kv m2 =>
    have hne : joinAmp ((kv :: m2).map encodePairChars) ≠ [] := by
      apply joinAmp_cons_ne_nil
      simp [encodePairChars]
    have hall : ∀ f ∈ (kv :: m2).map encodePairChars, '&' ∉ f := by
      intro f hf
      rw [List.mem_map] at hf
      obtain ⟨kv2, -, hkv⟩ := hf
      exact hkv ▸ encodePair_no_amp kv2
    show (if joinAmp ((kv :: m2).map encodePairChars) = [] then some []
      else (splitOnAmp (joinAmp ((kv :: m2).map encodePairChars))).mapM fun f =>
        match unquotePlusChars (splitFirstEq f).1, unquotePlusChars (splitFirstEq f).2 with
        | some n, some v => some ((⟨n⟩ : String), (⟨v⟩ : String))
        | _, _ => none) = some (kv :: m2)
    rw [if_neg hne]
    rw [splitOnAmp_joinAmp _ (by simp) hall]
    exact mapM_parseField (kv :: m2)

/-- C7: for every caller parameter mapping, the URL query string the builder
produces, decoded by standard query-string decoding, is exactly the
defaults-merged mapping (here even in the same key order). -/
theorem claim_C7 (p : ParamMap) (api_key : String) :
    parse_qsl (urlencode (dictMerge (defaults api_key) p)) =
      some (dictMerge (defaults api_key) p) := by
  apply parse_urlencode
  simp [dictMerge, defaults]

end GSV

namespace GSV

/-- Component encoding is injective. -/
theorem encodePairChars_inj {a b : String × String}
    (h : encodePairChars a = encodePairChars b) : a = b := by
  have hs := congrArg splitFirstEq h
  unfold encodePairChars at hs
  rw [splitFirstEq_append _ _ (fun hm => (quoteChars_mem_ne _ _ hm).2 rfl),
    splitFirstEq_append _ _ (fun hm => (quoteChars_mem_ne _ _ hm).2 rfl)] at hs
  rw [Prod.mk.injEq] at hs
  obtain ⟨h1, h2⟩ := hs
  obtain ⟨a1, a2⟩ := a
  obtain ⟨b1, b2⟩ := b
  rw [Prod.mk.injEq]
  exact ⟨string_ext (quoteChars_inj h1), string_ext (quoteChars_inj h2)⟩

/-- Every component is an infix of the joined query string. -/
theorem joinAmp_contains {x : List Char} {xs : List (List Char)} (h : x ∈ xs) :
    x <:+: joinAmp xs := by
  induction xs with
  | nil => simp at h
  | cons f rest ih =>
    rw [List.mem_cons] at h
    rcases h with h | h
    · subst h
      cases rest with
      | nil =>
        rw [joinAmp]
      | cons g r =>
        rw [joinAmp]
        exact ⟨[], '&' :: joinAmp (g :: r), by simp⟩
    · cases rest with
      | nil => simp at h
      | cons g r =>
        rw [joinAmp]
        obtain ⟨s, t, hst⟩ := ih h
        exact ⟨f ++ '&' :: s, t, by rw [← hst]; simp⟩

/-- An infix of a list is an infix of any extension on the left. -/
theorem contains_append_left {x l : List Char} (pre : List Char) (h : x <:+: l) :
    x <:+: (pre ++ l) := by
  obtain ⟨s, t, hst⟩ := h
  exact ⟨pre ++ s, t, by rw [← hst]; simp⟩

end GSV

namespace GSV

/-- C6: default-merging is override-safe.  When the caller supplies `size`
with value `v`, the merged mapping binds `size` to `v` and to nothing else,
the component `size=v` (encoded) occurs in both generated URLs, the default
`size=640x640` component does not occur at all (when `v` differs from it),
and caller-absent defaults are still added (`key` always, `size` for
mappings without one). -/
theorem claim_C6 (api_key site_api site_metadata : String) (p : ParamMap)
    (v : String) (hv : p.lookup "size" = some v) :
    (dictMerge (defaults api_key) p).lookup "size" = some v ∧
    ("size", v) ∈ dictMerge (defaults api_key) p ∧
    (∀ x, ("size", x) ∈ dictMerge (defaults api_key) p → x = v) ∧
    (v ≠ "640x640" → encodePairChars ("size", "640x640") ∉
      (dictMerge (defaults api_key) p).map encodePairChars) ∧
    encodePairChars ("size", v) <:+:
      (site_api ++ "?" ++ urlencode (dictMerge (defaults api_key) p)).data ∧
    encodePairChars ("size", v) <:+:
      (site_metadata ++ "?" ++ urlencode (dictMerge (defaults api_key) p)).data ∧
    (StreetView.init [p] api_key site_api site_metadata).links =
      [site_api ++ "?" ++ urlencode (dictMerge (defaults api_key) p)] ∧
    (StreetView.init [p] api_key site_api site_metadata).metadata_links =
      [site_metadata ++ "?" ++ urlencode (dictMerge (defaults api_key) p)] ∧
    (p.lookup "key" = none →
      (dictMerge (defaults api_key) p).lookup "key" = some api_key) ∧
    (∀ q : ParamMap, q.lookup "size" = none →
      (dictMerge (defaults api_key) q).lookup "size" = some "640x640") := by
  have hm : dictMerge (defaults api_key) p =
      ("size", v) :: ("key", (p.lookup "key").getD api_key) ::
        p.filter (fun kv => ((defaults api_key).lookup kv.1).isNone) := by
    unfold dictMerge defaults
    rw [List.map_cons, List.map_cons, List.map_nil]
    rw [hv]
    rfl
  have hmemv : ("size", v) ∈ dictMerge (defaults api_key) p := by
    rw [hm]
    exact List.mem_cons_self _ _
  have huniq : ∀ x, ("size", x) ∈ dictMerge (defaults api_key) p → x = v := by
    intro x hx
    rw [hm, List.mem_cons, List.mem_cons] at hx
    rcases hx with hx | hx | hx
    · rw [Prod.mk.injEq] at hx
      exact hx.2
    · rw [Prod.mk.injEq] at hx
      exact absurd hx.1 (by decide)
    · have hcond := (List.mem_filter.mp hx).2
      simp [defaults, List.lookup] at hcond
  have hquery : encodePairChars ("size", v) <:+:
      (urlencode (dictMerge (defaults api_key) p)).data :=
    joinAmp_contains (List.mem_map_of_mem encodePairChars hmemv)
  refine ⟨by rw [hm]; rfl, hmemv, huniq, ?_, ?_, ?_, rfl, rfl, ?_, ?_⟩
  · intro hne hmem
    rw [List.mem_map] at hmem
    obtain ⟨kv2, hkv2, hkeq⟩ := hmem
    have : kv2 = ("size", "640x640") := encodePairChars_inj hkeq
    subst this
    exact hne (huniq "640x640" hkv2).symm
  · rw [show site_api ++ "?" ++ urlencode (dictMerge (defaults api_key) p) =
      (site_api ++ "?") ++ urlencode (dictMerge (defaults api_key) p) from rfl]
    rw [String.data_append]
    exact contains_append_left _ hquery
  · rw [show site_metadata ++ "?" ++ urlencode (dictMerge (defaults api_key) p) =
      (site_metadata ++ "?") ++ urlencode (dictMerge (defaults api_key) p) from rfl]
    rw [String.data_append]
    exact contains_append_left _ hquery
  · intro hk
    rw [hm]
    simp [List.lookup, hk]
  · intro q hq
    unfold dictMerge defaults
    rw [List.map_cons, List.map_cons, List.map_nil]
    rw [hq]
    rfl

/-- Witness for C6: a caller-supplied `size` of `600x300`. -/
theorem claim_C6_witness :
    (dictMerge (defaults "KEY") [("size", "600x300")]).lookup "size" =
      some "600x300" ∧
    encodePairChars ("size", "600x300") <:+:
      ("A" ++ "?" ++ urlencode (dictMerge (defaults "KEY") [("size", "600x300")])).data ∧
    encodePairChars ("size", "640x640") ∉
      (dictMerge (defaults "KEY") [("size", "600x300")]).map encodePairChars :=
  ⟨(claim_C6 "KEY" "A" "M" [("size", "600x300")] "600x300" rfl).1,
    (claim_C6 "KEY" "A" "M" [("size", "600x300")] "600x300" rfl).2.2.2.2.1,
    (claim_C6 "KEY" "A" "M" [("size", "600x300")] "600x300" rfl).2.2.2.1
      (by decide)⟩

end GSV
